import Mathlib

/-!
Verification of the rendering/output-routing pipeline of `qr_creator.py`.

The Python source is shallowly embedded below. Pure string functions become
Lean functions over `String`/`List Char`; the QR matrix is a
`List (List Bool)`; the CLI argument record is a structure with the
argparse defaults; the output-target decision in `main` becomes the pure
function `resolve_target`. The character classes of the regexes are read
in their ASCII sense (word characters are letters, digits and underscore;
whitespace is the six ASCII whitespace characters).
-/

namespace QrCreator

/-- ASCII reading of the regex class `\w`: letters, digits and underscore. -/
def isWordChar (c : Char) : Bool :=
  c.isAlphanum || c == '_'

/-- ASCII reading of the regex class `\s`: the six ASCII whitespace characters. -/
def isSpaceChar (c : Char) : Bool :=
  c == ' ' || c == '\t' || c == '\n' || c == '\x0b' || c == '\x0c' || c == '\r'

/-- Characters kept by `re.sub(r'[^\w\s-]', '', text)` in `sanitize_filename`:
word characters, whitespace and hyphens. -/
def keepChar (c : Char) : Bool :=
  isWordChar c || isSpaceChar c || c == '-'

/-- Characters matched by the class `[-\s]` in the second substitution of
`sanitize_filename`: hyphens and whitespace. -/
def isSep (c : Char) : Bool :=
  c == '-' || isSpaceChar c

/-- One pass of `re.sub(r'[-\s]+', '-', s)`: every maximal run of separator
characters becomes a single hyphen.  The boolean argument records whether the
scanner is currently inside a separator run. -/
def collapseGo : List Char → Bool → List Char
  | [], _ => []
  | c :: rest, inRun =>
    if isSep c then
      if inRun then collapseGo rest true else '-' :: collapseGo rest true
    else
      c :: collapseGo rest false

/-- Python `s.strip('-')`: remove leading and trailing hyphens. -/
def stripHyphens (l : List Char) : List Char :=
  ((l.dropWhile fun c => c == '-').reverse.dropWhile fun c => c == '-').reverse

/-- Embedding of `sanitize_filename` (src/qr_creator.py lines 100-106):
keep word characters, whitespace and hyphens; collapse separator runs to a
single hyphen; strip leading/trailing hyphens; then truncate to 50
characters, or fall back to "qrcode" when the stripped name is empty. -/
def sanitize_filename (text : String) : String :=
  let filename1 := text.data.filter keepChar
  let filename2 := collapseGo filename1 false
  let filename3 := stripHyphens filename2
  if filename3 = [] then "qrcode" else String.mk (filename3.take 50)

/-- The per-row rendered lines of `emit_text` (the local `lines` of
src/qr_creator.py lines 67-74): in unicode mode each module is one
character, in ASCII mode each module is two characters. -/
def textLines (m : List (List Bool)) (use_unicode : Bool) : List String :=
  if use_unicode then
    m.map fun row => String.join (row.map fun cell => if cell then "█" else " ")
  else
    m.map fun row => String.join (row.map fun cell => if cell then "##" else "  ")

/-- Embedding of `emit_text` (src/qr_creator.py lines 59-76): rows joined by
a newline, with one final newline appended. -/
def emit_text (m : List (List Bool)) (use_unicode : Bool) : String :=
  String.intercalate "\n" (textLines m use_unicode) ++ "\n"

/-- The three SVG image factories the source can select. -/
inductive SvgFactory where
  | svgImage
  | svgPathImage
  | svgFragmentImage
deriving DecidableEq

/-- The only renderer-level error the spec names. -/
inductive QrError where
  | encodingError
deriving DecidableEq

/-- Embedding of the factory selection in `emit_svg` (src/qr_creator.py
lines 86-97).  Fallible code returns `Except`; this dispatch has no raise
statement, so every branch returns `Except.ok`: "rect" and "frag" pick
their factories and every other style falls through to `SvgPathImage`. -/
def emit_svg_select (style : String) : Except QrError SvgFactory :=
  if style = "rect" then Except.ok SvgFactory.svgImage
  else if style = "frag" then Except.ok SvgFactory.svgFragmentImage
  else Except.ok SvgFactory.svgPathImage

/-- The output target `main` resolves: the `output_file` string and the
`to_file` flag (src/qr_creator.py lines 126-139). -/
structure ResolvedTarget where
  output_file : String
  to_file : Bool
deriving DecidableEq

/-- Python truthiness of `args.out` in `if args.out:`: an `Optional[str]`
is truthy exactly when it is present and non-empty. -/
def optTruthy : Option String → Bool
  | none => false
  | some s => !(s == "")

/-- Embedding of the target-resolution block of `main` (src/qr_creator.py
lines 126-139). -/
def resolve_target (out : Option String) (to_png to_svg : Bool) (input : String) :
    ResolvedTarget :=
  if optTruthy out then
    let output_file := out.getD ""
    { output_file := output_file, to_file := output_file != "-" }
  else if to_png || to_svg then
    let base_name := sanitize_filename input
    let extension := if to_png then ".png" else ".svg"
    { output_file := base_name ++ extension, to_file := true }
  else
    { output_file := "-", to_file := false }

/-- The CLI argument record of `main` (src/qr_creator.py lines 109-120). -/
structure Args where
  input : String
  to_png : Bool
  to_svg : Bool
  out : Option String
  level : String
  box_size : Int
  border : Int
  ascii : Bool
  svg_style : String
deriving DecidableEq

/-- The argparse defaults: flags are off, `--out` is absent, level "M",
box size 10, border 4, SVG style "path" (src/qr_creator.py lines 109-120). -/
def defaultArgs (input : String) : Args :=
  { input := input
    to_png := false
    to_svg := false
    out := none
    level := "M"
    box_size := 10
    border := 4
    ascii := false
    svg_style := "path" }

/-- The closed output formats of the tool. -/
inductive OutputFormat where
  | text
  | png
  | svg
deriving DecidableEq

/-- Which renderer `main` dispatches to: `args.to_png` is tested first,
then `args.to_svg`, and text is the default (src/qr_creator.py
lines 141-161). -/
def selectedFormat (a : Args) : OutputFormat :=
  if a.to_png then OutputFormat.png
  else if a.to_svg then OutputFormat.svg
  else OutputFormat.text

/-- The resolution policy as the spec states it, amended only where the code
forces it: an explicit path that is empty is treated as if it were absent
(Python truthiness of `args.out`).  A non-empty explicit path other than
"-" is used verbatim; "-" forces the stream; with no usable explicit path,
raster and vector formats auto-name from the input and text goes to the
stream. -/
def resolve_target_policy (out : Option String) (to_png to_svg : Bool) (input : String) :
    ResolvedTarget :=
  let auto : ResolvedTarget :=
    if to_png then { output_file := sanitize_filename input ++ ".png", to_file := true }
    else if to_svg then { output_file := sanitize_filename input ++ ".svg", to_file := true }
    else { output_file := "-", to_file := false }
  match out with
  | none => auto
  | some o =>
    if o = "" then auto
    else if o = "-" then { output_file := "-", to_file := false }
    else { output_file := o, to_file := true }

/-- The glyph-widening map relating the two text renderers (stated from the
relational claim, to be compared against the code): the full block becomes
"##", a space becomes two spaces, and any other character is kept. -/
def widenChar (c : Char) : String :=
  if c = '█' then "##" else if c = ' ' then "  " else String.mk [c]

/-- Character-wise extension of `widenChar` to strings. -/
def widen (s : String) : String :=
  String.join (s.data.map widenChar)

end QrCreator

namespace QrCreator

/-- Claim C8: the command-line defaults are error-correction level "M",
module size 10, border 4, vector style "path", and the text format when
neither format flag is set. -/
theorem cli_defaults (input : String) :
    (defaultArgs input).level = "M" ∧
    (defaultArgs input).box_size = 10 ∧
    (defaultArgs input).border = 4 ∧
    (defaultArgs input).svg_style = "path" ∧
    selectedFormat (defaultArgs input) = OutputFormat.text :=
  ⟨rfl, rfl, rfl, rfl, rfl⟩

/-- Claim C6: with no explicit path and raster format, the input
"https://example.com" resolves to the file "httpsexamplecom.png", and an
all-punctuation input resolves to the fallback file "qrcode.png". -/
theorem resolver_scenarios :
    resolve_target none true false "https://example.com" =
      { output_file := "httpsexamplecom.png", to_file := true } ∧
    resolve_target none true false "!!!" =
      { output_file := "qrcode.png", to_file := true } := by
  constructor <;> decide

/-- Claim C5, counterexample: `emit_svg` does not signal an error for a
style outside the three recognized values; "bogus" is selected exactly like
"path", returning the path factory successfully. -/
theorem svg_unknown_style_no_error :
    (("bogus" : String) ≠ "path" ∧ ("bogus" : String) ≠ "rect" ∧
      ("bogus" : String) ≠ "frag") ∧
    emit_svg_select "bogus" = Except.ok SvgFactory.svgPathImage :=
  ⟨by decide, rfl⟩

/-- Claim C5, amended: `emit_svg` never signals an error for an
unrecognized style; every style other than "rect" and "frag" selects the
path factory. -/
theorem svg_style_fallback (style : String)
    (hr : style ≠ "rect") (hf : style ≠ "frag") :
    emit_svg_select style = Except.ok SvgFactory.svgPathImage := by
  unfold emit_svg_select
  rw [if_neg hr, if_neg hf]

/-- Witness for `svg_style_fallback` at the concrete style "zzz". -/
theorem svg_style_fallback_witness :
    (("zzz" : String) ≠ "rect" ∧ ("zzz" : String) ≠ "frag") ∧
    emit_svg_select "zzz" = Except.ok SvgFactory.svgPathImage :=
  ⟨by decide, svg_style_fallback "zzz" (by decide) (by decide)⟩

/-- Claim C1, counterexample: an explicit output path is given (the empty
string, which is not the sentinel "-"), yet the resolved target is not the
file at that path: the code treats a falsy `args.out` as absent and
auto-names from the input instead. -/
theorem resolve_explicit_empty_ignored :
    (("" : String) ≠ "-" ∧
      resolve_target (some "") true false "abc" ≠
        { output_file := "", to_file := true }) ∧
    resolve_target (some "") true false "abc" =
      { output_file := "abc.png", to_file := true } := by
  exact ⟨⟨by decide, by decide⟩, by decide⟩

/-- Claim C1, amended: the resolver follows the three-step policy with one
amendment forced by Python truthiness: an empty explicit path is treated as
if no explicit path were given.  `resolve_target_policy` spells out the
amended policy and the code agrees with it on every request. -/
theorem resolve_target_follows_policy (out : Option String) (to_png to_svg : Bool)
    (input : String) :
    resolve_target out to_png to_svg input =
      resolve_target_policy out to_png to_svg input := by
  cases out with
  | none => cases to_png <;> cases to_svg <;> rfl
  | some o =>
    by_cases ho : o = ""
    · subst ho
      cases to_png <;> cases to_svg <;> rfl
    · have ht : optTruthy (some o) = true := by
        simp [optTruthy, ho]
      by_cases hd : o = "-"
      · subst hd
        rfl
      · have hb : (o != "-") = true := bne_iff_ne.mpr hd
        simp [resolve_target, resolve_target_policy, ht, ho, hd, hb]

/-- Claim C10, counterexample: with the explicit path present but empty and
the raster format fixed, two invocations that differ only in their input
text resolve to different destinations. -/
theorem resolve_explicit_input_dependence :
    resolve_target (some "") true false "alpha" =
      { output_file := "alpha.png", to_file := true } ∧
    resolve_target (some "") true false "beta" =
      { output_file := "beta.png", to_file := true } ∧
    resolve_target (some "") true false "alpha" ≠
      resolve_target (some "") true false "beta" := by
  exact ⟨by decide, by decide, by decide⟩

/-- Claim C10, amended: when a non-empty explicit output path is present,
the resolved target is independent of the input text. -/
theorem resolve_explicit_input_independent (o : String) (ho : o ≠ "")
    (to_png to_svg : Bool) (t₁ t₂ : String) :
    resolve_target (some o) to_png to_svg t₁ =
      resolve_target (some o) to_png to_svg t₂ := by
  have ht : optTruthy (some o) = true := by
    simp [optTruthy, ho]
  unfold resolve_target
  rw [ht]
  simp

/-- Witness for `resolve_explicit_input_independent` at path "x.svg". -/
theorem resolve_explicit_input_independent_witness :
    ("x.svg" : String) ≠ "" ∧
    resolve_target (some "x.svg") false true "a" =
      resolve_target (some "x.svg") false true "b" :=
  ⟨by decide, resolve_explicit_input_independent "x.svg" (by decide) false true "a" "b"⟩

/-- The head of a `dropWhile` residue fails the predicate. -/
theorem head?_dropWhile_false {α : Type _} (p : α → Bool) (l : List α) :
    ∀ c ∈ (l.dropWhile p).head?, p c = false := by
  induction l with
  | nil => intro c hc; simp at hc
  | cons a rest ih =>
    intro c hc
    rw [List.dropWhile_cons] at hc
    by_cases hp : p a = true
    · rw [if_pos hp] at hc
      exact ih c hc
    · rw [if_neg hp] at hc
      simp only [List.head?_cons, Option.mem_def, Option.some.injEq] at hc
      subst hc
      simp only [Bool.not_eq_true] at hp
      exact hp

/-- A list whose head fails the predicate is unchanged by `dropWhile`. -/
theorem dropWhile_eq_self_of_head {α : Type _} {p : α → Bool} (l : List α)
    (h : ∀ c ∈ l.head?, p c = false) : l.dropWhile p = l := by
  cases l with
  | nil => rfl
  | cons a rest =>
    have ha := h a (by simp)
    simp [List.dropWhile_cons, ha]

/-- Every character produced by `collapseGo` is either an inserted hyphen or
a non-separator character of the input. -/
theorem mem_collapseGo {c : Char} :
    ∀ (l : List Char) (b : Bool),
      c ∈ collapseGo l b → c = '-' ∨ (c ∈ l ∧ isSep c = false) := by
  intro l
  induction l with
  | nil => intro b hc; simp [collapseGo] at hc
  | cons a rest ih =>
    intro b hc
    by_cases ha : isSep a = true
    · cases b with
      | true =>
        rw [show collapseGo (a :: rest) true = collapseGo rest true from by
          simp [collapseGo, ha]] at hc
        rcases ih true hc with h | ⟨hm, hs⟩
        · exact Or.inl h
        · exact Or.inr ⟨List.mem_cons_of_mem _ hm, hs⟩
      | false =>
        rw [show collapseGo (a :: rest) false = '-' :: collapseGo rest true from by
          simp [collapseGo, ha]] at hc
        rcases List.mem_cons.mp hc with h | h
        · exact Or.inl h
        · rcases ih true h with h' | ⟨hm, hs⟩
          · exact Or.inl h'
          · exact Or.inr ⟨List.mem_cons_of_mem _ hm, hs⟩
    · rw [show collapseGo (a :: rest) b = a :: collapseGo rest false from by
        simp [collapseGo, ha]] at hc
      rcases List.mem_cons.mp hc with h | h
      · subst h
        refine Or.inr ⟨List.mem_cons_self _ _, ?_⟩
        simp only [Bool.not_eq_true] at ha
        exact ha
      · rcases ih false h with h' | ⟨hm, hs⟩
        · exact Or.inl h'
        · exact Or.inr ⟨List.mem_cons_of_mem _ hm, hs⟩

/-- Inside a separator run, `collapseGo` only resumes output at a
non-separator character. -/
theorem head?_collapseGo_true :
    ∀ (l : List Char), ∀ c ∈ (collapseGo l true).head?, isSep c = false := by
  intro l
  induction l with
  | nil => intro c hc; simp [collapseGo] at hc
  | cons a rest ih =>
    intro c hc
    by_cases ha : isSep a = true
    · rw [show collapseGo (a :: rest) true = collapseGo rest true from by
        simp [collapseGo, ha]] at hc
      exact ih c hc
    · rw [show collapseGo (a :: rest) true = a :: collapseGo rest false from by
        simp [collapseGo, ha]] at hc
      simp only [List.head?_cons, Option.mem_def, Option.some.injEq] at hc
      subst hc
      simp only [Bool.not_eq_true] at ha
      exact ha

/-- The output of `collapseGo` never holds two adjacent separator
characters. -/
theorem chain'_collapseGo :
    ∀ (l : List Char) (b : Bool),
      List.Chain' (fun x y => ¬(isSep x = true ∧ isSep y = true)) (collapseGo l b) := by
  intro l
  induction l with
  | nil => intro b; simp [collapseGo]
  | cons a rest ih =>
    intro b
    by_cases ha : isSep a = true
    · cases b with
      | true =>
        rw [show collapseGo (a :: rest) true = collapseGo rest true from by
          simp [collapseGo, ha]]
        exact ih true
      | false =>
        rw [show collapseGo (a :: rest) false = '-' :: collapseGo rest true from by
          simp [collapseGo, ha]]
        rw [List.chain'_cons']
        refine ⟨?_, ih true⟩
        rintro y hy ⟨_, hy2⟩
        rw [head?_collapseGo_true rest y hy] at hy2
        exact Bool.false_ne_true hy2
    · rw [show collapseGo (a :: rest) b = a :: collapseGo rest false from by
        simp [collapseGo, ha]]
      rw [List.chain'_cons']
      refine ⟨?_, ih false⟩
      rintro y _ ⟨h1, _⟩
      exact ha h1

/-- When the next character is not a separator, the run flag makes no
difference to `collapseGo`. -/
theorem collapseGo_true_eq_false (l : List Char)
    (h : ∀ c ∈ l.head?, isSep c = false) :
    collapseGo l true = collapseGo l false := by
  cases l with
  | nil => rfl
  | cons a rest =>
    have ha : isSep a = false := h a (by simp)
    simp [collapseGo, ha]

/-- A list whose separators are all single hyphens with no two adjacent is a
fixed point of the collapsing pass. -/
theorem collapseGo_fixed :
    ∀ (l : List Char),
      (∀ c ∈ l, isSep c = true → c = '-') →
      List.Chain' (fun x y => ¬(x = '-' ∧ y = '-')) l →
      collapseGo l false = l := by
  intro l
  induction l with
  | nil => intro _ _; rfl
  | cons a rest ih =>
    intro hsep hchain
    rw [List.chain'_cons'] at hchain
    obtain ⟨hR, htail⟩ := hchain
    by_cases ha : isSep a = true
    · have ha' : a = '-' := hsep a (List.mem_cons_self _ _) ha
      subst ha'
      rw [show collapseGo ('-' :: rest) false = '-' :: collapseGo rest true from by
        simp [collapseGo, show isSep '-' = true from rfl]]
      congr 1
      have hhd : ∀ c ∈ rest.head?, isSep c = false := by
        intro c hc
        by_contra hB
        simp only [Bool.not_eq_false] at hB
        have hc' : c = '-' :=
          hsep c (List.mem_cons_of_mem _ (List.mem_of_mem_head? hc)) hB
        exact hR c hc ⟨rfl, hc'⟩
      rw [collapseGo_true_eq_false rest hhd]
      exact ih (fun c hc hs => hsep c (List.mem_cons_of_mem _ hc) hs) htail
    · rw [show collapseGo (a :: rest) false = a :: collapseGo rest false from by
        simp [collapseGo, ha]]
      congr 1
      exact ih (fun c hc hs => hsep c (List.mem_cons_of_mem _ hc) hs) htail

/-- Stripping hyphens from both ends only removes characters. -/
theorem mem_stripHyphens {c : Char} (l : List Char) (hc : c ∈ stripHyphens l) :
    c ∈ l := by
  unfold stripHyphens at hc
  rw [List.mem_reverse] at hc
  have h1 := List.Sublist.mem hc (List.dropWhile_sublist _)
  rw [List.mem_reverse] at h1
  exact List.Sublist.mem h1 (List.dropWhile_sublist _)

/-- After stripping, the first character is not a hyphen. -/
theorem head?_stripHyphens (l : List Char) :
    ∀ c ∈ (stripHyphens l).head?, (c == '-') = false := by
  intro c hc
  unfold stripHyphens at hc
  cases hdd : l.dropWhile (fun c => c == '-') with
  | nil => rw [hdd] at hc; simp at hc
  | cons a d =>
    have hpa : (a == '-') = false := by
      apply head?_dropWhile_false (fun c => c == '-') l
      rw [hdd]
      simp
    rw [hdd] at hc
    rw [show (a :: d).reverse = d.reverse ++ [a] from by simp] at hc
    rw [List.dropWhile_append] at hc
    by_cases he : (d.reverse.dropWhile fun c => c == '-').isEmpty = true
    · rw [if_pos he] at hc
      rw [show List.dropWhile (fun c => c == '-') [a] = [a] from by
        simp [List.dropWhile_cons, hpa]] at hc
      simp only [List.reverse_cons, List.reverse_nil, List.nil_append,
        List.head?_cons, Option.mem_def, Option.some.injEq] at hc
      subst hc
      exact hpa
    · rw [if_neg he] at hc
      rw [List.reverse_append] at hc
      simp only [List.reverse_cons, List.reverse_nil, List.nil_append,
        List.cons_append, List.head?_cons, Option.mem_def, Option.some.injEq] at hc
      subst hc
      exact hpa

/-- Stripping both ends preserves a symmetric chain condition. -/
theorem chain'_stripHyphens {R : Char → Char → Prop}
    (hsymm : ∀ x y, R x y → R y x) (l : List Char)
    (h : List.Chain' R l) : List.Chain' R (stripHyphens l) := by
  have hrev : ∀ (m : List Char), List.Chain' R m → List.Chain' R m.reverse := by
    intro m hm
    rw [List.chain'_reverse]
    exact List.Chain'.imp (fun a b hab => hsymm a b hab) hm
  unfold stripHyphens
  apply hrev
  apply List.Chain'.suffix _ (List.dropWhile_suffix _)
  apply hrev
  exact List.Chain'.suffix h (List.dropWhile_suffix _)

/-- A word character is not a separator. -/
theorem word_not_sep (c : Char) (h : isWordChar c = true) : isSep c = false := by
  by_contra hB
  simp only [Bool.not_eq_false] at hB
  simp only [isSep, Bool.or_eq_true] at hB
  rcases hB with h1 | h1
  · rw [beq_iff_eq] at h1
    subst h1
    exact absurd h (by decide)
  · have h2 : c = ' ' ∨ c = '\t' ∨ c = '\n' ∨ c = '\x0b' ∨ c = '\x0c' ∨ c = '\r' := by
      simpa [isSpaceChar, or_assoc] using h1
    rcases h2 with h2 | h2 | h2 | h2 | h2 | h2 <;> (subst h2; exact absurd h (by decide))

/-- Shape invariants of every `sanitize_filename` output: non-empty, at
most 50 characters, only word characters and hyphens, no leading hyphen,
and no two adjacent hyphens. -/
theorem sanitize_invariants (x : String) :
    (sanitize_filename x).data ≠ [] ∧
    (sanitize_filename x).data.length ≤ 50 ∧
    (∀ c ∈ (sanitize_filename x).data, isWordChar c = true ∨ c = '-') ∧
    (∀ c ∈ (sanitize_filename x).data.head?, c ≠ '-') ∧
    List.Chain' (fun a b => ¬(a = '-' ∧ b = '-')) (sanitize_filename x).data := by
  by_cases h : stripHyphens (collapseGo (x.data.filter keepChar) false) = []
  · have hq : sanitize_filename x = "qrcode" := by
      simp only [sanitize_filename]
      rw [if_pos h]
    rw [hq]
    refine ⟨by decide, by decide, by decide, by decide, ?_⟩
    show List.Chain' _ ['q', 'r', 'c', 'o', 'd', 'e']
    simp only [List.chain'_cons, List.chain'_singleton]
    exact ⟨by decide, by decide, by decide, by decide, by decide⟩
  · have hdata : (sanitize_filename x).data =
        (stripHyphens (collapseGo (x.data.filter keepChar) false)).take 50 := by
      simp only [sanitize_filename]
      rw [if_neg h]
    refine ⟨?_, ?_, ?_, ?_, ?_⟩
    · rw [hdata]
      intro hE
      rcases List.take_eq_nil_iff.mp hE with h50 | hnil
      · exact absurd h50 (by decide)
      · exact h hnil
    · rw [hdata, List.length_take]
      exact Nat.min_le_left _ _
    · intro c hc
      rw [hdata] at hc
      have hc3 : c ∈ stripHyphens (collapseGo (x.data.filter keepChar) false) :=
        List.Sublist.mem hc (List.take_sublist _ _)
      have hc2 := mem_stripHyphens _ hc3
      rcases mem_collapseGo _ _ hc2 with h' | ⟨hm, hs⟩
      · exact Or.inr h'
      · left
        have hk : keepChar c = true := (List.mem_filter.mp hm).2
        simp only [keepChar, Bool.or_eq_true] at hk
        simp only [isSep, Bool.or_eq_false_iff] at hs
        rcases hk with (hk | hk) | hk
        · exact hk
        · rw [hk] at hs
          exact absurd hs.2 (by simp)
        · rw [hk] at hs
          exact absurd hs.1 (by simp)
    · intro c hc
      rw [hdata, List.head?_take] at hc
      rw [if_neg (by decide : ¬(50 = 0))] at hc
      have hb := head?_stripHyphens _ c hc
      intro hEq
      subst hEq
      simp at hb
    · rw [hdata]
      apply List.Chain'.take
      apply chain'_stripHyphens (fun a b hab hcon => hab ⟨hcon.2, hcon.1⟩)
      refine List.Chain'.imp ?_ (chain'_collapseGo _ false)
      intro a b hab hcon
      exact hab ⟨by rw [hcon.1]; decide, by rw [hcon.2]; decide⟩

/-- A non-empty string of at most 50 word characters and isolated interior
hyphens, not starting or ending with a hyphen, is a fixed point of
`sanitize_filename`. -/
theorem sanitize_fixed (y : String)
    (hne : y.data ≠ [])
    (hchars : ∀ c ∈ y.data, isWordChar c = true ∨ c = '-')
    (hchain : List.Chain' (fun a b => ¬(a = '-' ∧ b = '-')) y.data)
    (hhead : ∀ c ∈ y.data.head?, c ≠ '-')
    (hlast : ∀ c ∈ y.data.getLast?, c ≠ '-')
    (hlen : y.data.length ≤ 50) :
    sanitize_filename y = y := by
  have hkeep : y.data.filter keepChar = y.data := by
    rw [List.filter_eq_self]
    intro c hc
    rcases hchars c hc with h | h
    · simp [keepChar, h]
    · subst h
      decide
  have hsep' : ∀ c ∈ y.data, isSep c = true → c = '-' := by
    intro c hc hs
    rcases hchars c hc with h | h
    · rw [word_not_sep c h] at hs
      exact absurd hs (by simp)
    · exact h
  have hcol : collapseGo y.data false = y.data := collapseGo_fixed y.data hsep' hchain
  have hstrip : stripHyphens y.data = y.data := by
    unfold stripHyphens
    have h1 : y.data.dropWhile (fun c => c == '-') = y.data := by
      apply dropWhile_eq_self_of_head
      intro c hc
      have hne' := hhead c hc
      simp [hne']
    rw [h1]
    have h2 : y.data.reverse.dropWhile (fun c => c == '-') = y.data.reverse := by
      apply dropWhile_eq_self_of_head
      intro c hc
      rw [List.head?_reverse] at hc
      have hne' := hlast c hc
      simp [hne']
    rw [h2, List.reverse_reverse]
  simp only [sanitize_filename]
  rw [hkeep, hcol, hstrip]
  rw [if_neg hne, List.take_of_length_le hlen]

/-- Claim C2, counterexample: sanitize is not idempotent.  On forty-nine
letters followed by "-b" the first pass truncates to fifty characters and
leaves a trailing hyphen, which a second pass then strips. -/
theorem sanitize_not_idempotent :
    sanitize_filename (sanitize_filename (String.mk (List.replicate 49 'a' ++ ['-', 'b']))) ≠
      sanitize_filename (String.mk (List.replicate 49 'a' ++ ['-', 'b'])) := by
  decide

/-- Claim C2, amended: sanitize is idempotent on every input whose
sanitized form does not end with a hyphen; only the 50-character truncation
can leave such a trailing hyphen and break idempotence. -/
theorem sanitize_idempotent_of_no_trailing_hyphen (x : String)
    (h : (sanitize_filename x).data.getLast? ≠ some '-') :
    sanitize_filename (sanitize_filename x) = sanitize_filename x := by
  obtain ⟨h1, h2, h3, h4, h5⟩ := sanitize_invariants x
  refine sanitize_fixed _ h1 h3 h5 h4 ?_ h2
  intro c hc hEq
  subst hEq
  exact h (Option.mem_def.mp hc)

/-- Witness for `sanitize_idempotent_of_no_trailing_hyphen` at the input
"hello world". -/
theorem sanitize_idempotent_witness :
    (sanitize_filename "hello world").data.getLast? ≠ some '-' ∧
    sanitize_filename (sanitize_filename "hello world") = sanitize_filename "hello world" :=
  ⟨by decide, sanitize_idempotent_of_no_trailing_hyphen "hello world" (by decide)⟩

/-- Claim C3, counterexample: the sanitized name can end with a hyphen.
On forty-nine letters followed by "-c" the stripping happens before the
50-character truncation, so the truncated result ends with '-'. -/
theorem sanitize_trailing_hyphen_possible :
    (sanitize_filename (String.mk (List.replicate 49 'b' ++ ['-', 'c']))).data.getLast? =
      some '-' := by
  decide

/-- Claim C3, amended: every sanitize output has length at most 50,
consists only of word characters and hyphens with no two hyphens adjacent
and no leading hyphen (a trailing hyphen can survive when the truncation
to 50 characters cuts just after one), and equals the fallback "qrcode"
when the input reduces to empty. -/
theorem sanitize_shape (x : String) :
    (sanitize_filename x).length ≤ 50 ∧
    (∀ c ∈ (sanitize_filename x).data, isWordChar c = true ∨ c = '-') ∧
    (∀ c ∈ (sanitize_filename x).data.head?, c ≠ '-') ∧
    List.Chain' (fun a b => ¬(a = '-' ∧ b = '-')) (sanitize_filename x).data ∧
    (stripHyphens (collapseGo (x.data.filter keepChar) false) = [] →
      sanitize_filename x = "qrcode") := by
  obtain ⟨_, h2, h3, h4, h5⟩ := sanitize_invariants x
  refine ⟨h2, h3, h4, h5, ?_⟩
  intro hE
  simp only [sanitize_filename]
  rw [if_pos hE]

/-- Witness for `sanitize_shape` at the all-punctuation input "!!!". -/
theorem sanitize_shape_witness :
    stripHyphens (collapseGo (("!!!" : String).data.filter keepChar) false) = [] ∧
    sanitize_filename "!!!" = "qrcode" :=
  ⟨by decide, (sanitize_shape "!!!").2.2.2.2 (by decide)⟩

/-- `String.join` of a cons. -/
theorem join_cons (a : String) (l : List String) :
    String.join (a :: l) = a ++ String.join l := by
  apply String.ext
  simp [String.data_join]

/-- The length of a joined list of strings is the sum of the lengths. -/
theorem length_join (l : List String) :
    (String.join l).length = (l.map String.length).sum := by
  show (String.join l).data.length = _
  rw [String.data_join, List.length_flatten, List.map_map]
  rfl

/-- Length of a unicode text cell. -/
theorem ucell_length (b : Bool) :
    (if b then ("█" : String) else " ").length = 1 := by
  cases b <;> rfl

/-- Length of an ASCII text cell. -/
theorem acell_length (b : Bool) :
    (if b then ("##" : String) else "  ").length = 2 := by
  cases b <;> rfl

/-- `widen` distributes over string append. -/
theorem widen_append (s t : String) :
    widen (s ++ t) = widen s ++ widen t := by
  apply String.ext
  simp [widen, String.data_join]

/-- `widen` distributes over `String.join`. -/
theorem widen_join (l : List String) :
    widen (String.join l) = String.join (l.map widen) := by
  induction l with
  | nil => rfl
  | cons a l ih =>
    rw [join_cons, widen_append, ih, List.map_cons, join_cons]

/-- Closed form of the intercalate worker. -/
theorem intercalate_go_eq (s : String) :
    ∀ (l : List String) (acc : String),
      String.intercalate.go acc s l = acc ++ String.join (l.map fun x => s ++ x) := by
  intro l
  induction l with
  | nil =>
    intro acc
    show acc = acc ++ String.join []
    rw [show String.join [] = "" from rfl, String.append_empty]
  | cons a l ih =>
    intro acc
    show String.intercalate.go (acc ++ s ++ a) s l = _
    rw [ih, List.map_cons, join_cons]
    simp [String.append_assoc]

/-- Closed form of `String.intercalate` on a cons. -/
theorem intercalate_cons (s a : String) (l : List String) :
    String.intercalate s (a :: l) = a ++ String.join (l.map fun x => s ++ x) :=
  intercalate_go_eq s l a

/-- `widen` maps a newline-joined list to the newline-joined list of its
images, because `widen` fixes the newline character. -/
theorem widen_intercalate (l : List String) :
    widen (String.intercalate "\n" l) = String.intercalate "\n" (l.map widen) := by
  cases l with
  | nil => rfl
  | cons a l =>
    rw [intercalate_cons, List.map_cons, intercalate_cons, widen_append, widen_join,
      List.map_map, List.map_map]
    congr 1
    congr 1
    apply List.map_congr_left
    intro x _
    show widen ("\n" ++ x) = "\n" ++ widen x
    rw [widen_append]
    rfl

/-- Widening a unicode-rendered row yields the ASCII-rendered row. -/
theorem widen_unicode_row (row : List Bool) :
    widen (String.join (row.map fun cell => if cell then ("█" : String) else " ")) =
      String.join (row.map fun cell => if cell then ("##" : String) else "  ") := by
  induction row with
  | nil => rfl
  | cons b row ih =>
    rw [List.map_cons, List.map_cons, join_cons, join_cons, widen_append, ih]
    congr 1
    cases b <;> rfl

/-- The ASCII lines are the widened unicode lines. -/
theorem textLines_false_eq_widen (m : List (List Bool)) :
    textLines m false = (textLines m true).map widen := by
  show m.map _ = (m.map _).map widen
  rw [List.map_map]
  apply List.map_congr_left
  intro row _
  exact (widen_unicode_row row).symm

/-- Claim C4, counterexample: in unicode mode a line of `emit_text` has one
character per module, so on the one-module matrix the line length is 1 and
not 2 times the matrix side. -/
theorem unicode_line_length_one :
    (∀ row ∈ ([[true]] : List (List Bool)), row.length = ([[true]] : List (List Bool)).length) ∧
    (textLines [[true]] true).map String.length = [1] ∧
    (1 : Nat) ≠ 2 * ([[true]] : List (List Bool)).length := by
  refine ⟨by decide, rfl, by decide⟩

/-- Claim C4, amended: for every square matrix the rendered text has one
line per matrix row and all lines have the same length, which is the
matrix side in unicode mode and twice the matrix side in ASCII mode. -/
theorem textLines_shape (m : List (List Bool)) (u : Bool)
    (hsq : ∀ row ∈ m, row.length = m.length) :
    (textLines m u).length = m.length ∧
    ∀ s ∈ textLines m u, s.length = (if u then m.length else 2 * m.length) := by
  constructor
  · cases u <;> simp [textLines]
  · intro s hs
    cases u with
    | true =>
      replace hs : s ∈ m.map (fun row =>
          String.join (row.map fun cell => if cell then ("█" : String) else " ")) := hs
      rcases List.mem_map.mp hs with ⟨row, hrow, rfl⟩
      rw [length_join, List.map_map]
      rw [show (row.map (String.length ∘ fun cell => if cell then ("█" : String) else " ")) =
          row.map (fun _ => 1) from List.map_congr_left (fun b _ => ucell_length b)]
      rw [List.map_const', List.sum_replicate, smul_eq_mul, mul_one, hsq row hrow]
      simp
    | false =>
      replace hs : s ∈ m.map (fun row =>
          String.join (row.map fun cell => if cell then ("##" : String) else "  ")) := hs
      rcases List.mem_map.mp hs with ⟨row, hrow, rfl⟩
      rw [length_join, List.map_map]
      rw [show (row.map (String.length ∘ fun cell => if cell then ("##" : String) else "  ")) =
          row.map (fun _ => 2) from List.map_congr_left (fun b _ => acell_length b)]
      rw [List.map_const', List.sum_replicate, smul_eq_mul, hsq row hrow]
      simp [Nat.mul_comm]

/-- Witness for `textLines_shape` on a square two-by-two matrix in ASCII
mode. -/
theorem textLines_shape_witness :
    (∀ row ∈ ([[true, false], [false, true]] : List (List Bool)),
      row.length = ([[true, false], [false, true]] : List (List Bool)).length) ∧
    ((textLines [[true, false], [false, true]] false).length = 2 ∧
      ∀ s ∈ textLines [[true, false], [false, true]] false,
        s.length = (if false then 2 else 2 * 2)) := by
  refine ⟨by decide, ?_⟩
  have h := textLines_shape [[true, false], [false, true]] false (by decide)
  exact h

/-- Claim C7: `emit_text` joins the rendered rows with a single newline and
appends exactly one final newline; the empty matrix renders as a lone
newline; there is one rendered line per matrix row and no rendered line
contains a newline character. -/
theorem emit_text_newline_structure :
    (∀ u, emit_text [] u = "\n") ∧
    (∀ m u, emit_text m u = String.intercalate "\n" (textLines m u) ++ "\n") ∧
    (∀ m u, (textLines m u).length = m.length) ∧
    (∀ m u, ∀ s ∈ textLines m u, ∀ c ∈ s.data, c ≠ '\n') := by
  refine ⟨?_, ?_, ?_, ?_⟩
  · intro u
    cases u <;> rfl
  · intro m u
    rfl
  · intro m u
    cases u <;> simp [textLines]
  · intro m u s hs c hc
    cases u with
    | true =>
      replace hs : s ∈ m.map (fun row =>
          String.join (row.map fun cell => if cell then ("█" : String) else " ")) := hs
      rcases List.mem_map.mp hs with ⟨row, _, rfl⟩
      rw [show (String.join (row.map fun cell => if cell then ("█" : String) else " ")).data =
          ((row.map fun cell => if cell then ("█" : String) else " ").map String.data).flatten
        from String.data_join _] at hc
      rcases List.mem_flatten.mp hc with ⟨ld, hld, hcld⟩
      rw [List.map_map] at hld
      rcases List.mem_map.mp hld with ⟨b, _, rfl⟩
      cases b with
      | true =>
        have hc' : c = '█' := by simpa [Function.comp] using hcld
        subst hc'
        decide
      | false =>
        have hc' : c = ' ' := by simpa [Function.comp] using hcld
        subst hc'
        decide
    | false =>
      replace hs : s ∈ m.map (fun row =>
          String.join (row.map fun cell => if cell then ("##" : String) else "  ")) := hs
      rcases List.mem_map.mp hs with ⟨row, _, rfl⟩
      rw [show (String.join (row.map fun cell => if cell then ("##" : String) else "  ")).data =
          ((row.map fun cell => if cell then ("##" : String) else "  ").map String.data).flatten
        from String.data_join _] at hc
      rcases List.mem_flatten.mp hc with ⟨ld, hld, hcld⟩
      rw [List.map_map] at hld
      rcases List.mem_map.mp hld with ⟨b, _, rfl⟩
      cases b with
      | true =>
        have hc' : c = '#' := by simpa [Function.comp] using hcld
        subst hc'
        decide
      | false =>
        have hc' : c = ' ' := by simpa [Function.comp] using hcld
        subst hc'
        decide

/-- Witness for `emit_text_newline_structure` at a one-module matrix in
ASCII mode. -/
theorem emit_text_newline_structure_witness :
    "##" ∈ textLines [[true]] false ∧ '#' ∈ ("##" : String).data ∧ ('#' : Char) ≠ '\n' :=
  ⟨by decide, by decide,
    emit_text_newline_structure.2.2.2 [[true]] false "##" (by decide) '#' (by decide)⟩

/-- Claim C9: the ASCII-mode output of `emit_text` is exactly the
unicode-mode output with every full block replaced by "##" and every space
doubled, and each ASCII line is twice as long as the matching unicode
line. -/
theorem ascii_is_widened_unicode (m : List (List Bool)) :
    emit_text m false = widen (emit_text m true) ∧
    (textLines m false).map String.length =
      ((textLines m true).map String.length).map (fun n => 2 * n) := by
  constructor
  · show String.intercalate "\n" (textLines m false) ++ "\n" =
      widen (String.intercalate "\n" (textLines m true) ++ "\n")
    rw [widen_append, widen_intercalate, textLines_false_eq_widen]
    congr 1
  · rw [textLines_false_eq_widen, List.map_map, List.map_map]
    apply List.map_congr_left
    intro s hs
    replace hs : s ∈ m.map (fun row =>
        String.join (row.map fun cell => if cell then ("█" : String) else " ")) := hs
    rcases List.mem_map.mp hs with ⟨row, _, rfl⟩
    show (widen (String.join (row.map fun cell => if cell then ("█" : String) else " "))).length
      = 2 * (String.join (row.map fun cell => if cell then ("█" : String) else " ")).length
    rw [widen_unicode_row row, length_join, length_join, List.map_map, List.map_map]
    rw [show (row.map (String.length ∘ fun cell => if cell then ("##" : String) else "  ")) =
        row.map (fun _ => 2) from List.map_congr_left (fun b _ => acell_length b)]
    rw [show (row.map (String.length ∘ fun cell => if cell then ("█" : String) else " ")) =
        row.map (fun _ => 1) from List.map_congr_left (fun b _ => ucell_length b)]
    rw [List.map_const', List.map_const', List.sum_replicate, List.sum_replicate]
    simp [smul_eq_mul, Nat.mul_comm]

end QrCreator
